import Mathlib

/-!
Verification of the FiatRails settlement bridge against its design spec.

The development shallowly embeds the relevant program parts:
- the MintEscrow contract (contracts/src/MintEscrow.sol): intent submission,
  compliance-gated execution, refunds and the daily issuance cap, modelled as a
  state machine whose operations return the contract's ordered effect trace
  (a revert returns an error and leaves the state untouched, matching EVM
  transaction semantics);
- the HMAC authenticity verifier (api/internal/hmacauth/middleware.go);
- the settlement retry loop and the HTTP handlers of the Go API server
  (internal/server), with external collaborators (escrow client, clock,
  cancellation signal) passed in as explicit functions.

Machine integers do not overflow on the inputs involved (Solidity 0.8 reverts
on overflow; amounts are bounded far below 2^256), so amounts and addresses
are modelled as Nat, Go durations and times as Int nanoseconds.
-/

/-! ## MintEscrow state machine (contracts/src/MintEscrow.sol)

Addresses, bytes32 ids, country codes and tx references are modelled as Nat,
with 0 standing for the zero address / zero bytes32.  The MintStatus enum and
MintIntent struct are declared in IMintEscrow.sol (interface-only file); their
shape follows the spec's data model, with Pending the default enum member. -/

inductive MintStatus
  | Pending
  | Executed
  | Refunded
deriving DecidableEq

structure MintIntent where
  user : Nat
  amount : Nat
  countryCode : Nat
  txRef : Nat
  timestamp : Nat
  status : MintStatus
deriving DecidableEq

/-- Default value of the `_intents` storage mapping: all fields zero,
status the first enum member. -/
def emptyIntent : MintIntent :=
  { user := 0, amount := 0, countryCode := 0, txRef := 0, timestamp := 0,
    status := MintStatus.Pending }

/-- Contract storage of MintEscrow.  Mappings are total functions with the
zero default baked into the stored values. -/
structure EscrowState where
  stablecoin : Nat
  userRegistry : Nat
  intents : Nat → MintIntent
  txRefConsumed : Nat → Bool
  countryTokens : Nat → Nat
  dailyMinted : Nat → Nat
  paused : Bool
  executors : Nat → Bool

/-- Revert reasons of MintEscrow (custom errors of the contract and of the
OpenZeppelin modifiers it uses). -/
inductive EscrowError
  | StablecoinNotSet
  | UserRegistryNotSet
  | InvalidAmount
  | InvalidCountryCode
  | CountryTokenNotConfigured
  | InvalidTxRef
  | TxRefAlreadyConsumed
  | IntentAlreadyExists
  | IntentNotFound
  | IntentAlreadyExecuted
  | UserNotCompliant
  | DailyLimitExceeded
  | EnforcedPause
  | AccessControlUnauthorized
deriving DecidableEq

/-- One primitive step of a MintEscrow operation, in program order: storage
writes and external calls.  `transferIn` is `stablecoin.safeTransferFrom(msg.sender,
address(this), amount)`, `transferOut` is `stablecoin.safeTransfer`, `callMint`
is `ICountryToken(token).mint`. -/
inductive Step
  | transferIn (sender : Nat) (amount : Nat)
  | consumeTxRef (txRef : Nat)
  | storeIntent (id : Nat) (intent : MintIntent)
  | setStatus (id : Nat) (st : MintStatus)
  | incDaily (bucket : Nat) (amount : Nat)
  | callMint (token : Nat) (toAddr : Nat) (amount : Nat)
  | transferOut (toAddr : Nat) (amount : Nat)
deriving DecidableEq

/-- Effect of one step on contract storage; external calls leave MintEscrow
storage unchanged. -/
def applyStep (s : EscrowState) : Step → EscrowState
  | Step.transferIn _ _ => s
  | Step.consumeTxRef r =>
      { s with txRefConsumed := fun k => if k = r then true else s.txRefConsumed k }
  | Step.storeIntent id intent =>
      { s with intents := fun k => if k = id then intent else s.intents k }
  | Step.setStatus id st =>
      { s with intents := fun k => if k = id then { s.intents id with status := st } else s.intents k }
  | Step.incDaily b a =>
      { s with dailyMinted := fun k => if k = b then s.dailyMinted b + a else s.dailyMinted k }
  | Step.callMint _ _ _ => s
  | Step.transferOut _ _ => s

def applySteps (s : EscrowState) (steps : List Step) : EscrowState :=
  steps.foldl applyStep s

/-! Limits from contracts/src/utils/SeedConstants.sol (wei). -/

def MIN_MINT_AMOUNT : Nat := 10 ^ 18

def MAX_MINT_AMOUNT : Nat := 1000 * 10 ^ 18

def DAILY_MINT_LIMIT : Nat := 10000 * 10 ^ 18

/-- `_availableMintingCapacity` of MintEscrow.sol. -/
def availableMintingCapacity (s : EscrowState) (dayBucket : Nat) : Nat :=
  if DAILY_MINT_LIMIT ≤ s.dailyMinted dayBucket then 0
  else DAILY_MINT_LIMIT - s.dailyMinted dayBucket

/-- `submitIntent` of MintEscrow.sol.  `kec` is the keccak256 hash of the
abi-packed `(msg.sender, amount, countryCode, txRef)`, kept abstract.  On
success it returns the intent id and the effect trace in program order; a
revert returns the error and (per EVM semantics) no effects. -/
def submitIntent (s : EscrowState) (kec : Nat → Nat → Nat → Nat → Nat)
    (sender amount countryCode txRef blockTimestamp : Nat) :
    Except EscrowError (Nat × List Step) :=
  if s.paused then Except.error EscrowError.EnforcedPause
  else if s.stablecoin = 0 then Except.error EscrowError.StablecoinNotSet
  else if s.userRegistry = 0 then Except.error EscrowError.UserRegistryNotSet
  else if amount < MIN_MINT_AMOUNT ∨ MAX_MINT_AMOUNT < amount then
    Except.error EscrowError.InvalidAmount
  else if countryCode = 0 then Except.error EscrowError.InvalidCountryCode
  else if s.countryTokens countryCode = 0 then
    Except.error EscrowError.CountryTokenNotConfigured
  else if txRef = 0 then Except.error EscrowError.InvalidTxRef
  else if s.txRefConsumed txRef then Except.error EscrowError.TxRefAlreadyConsumed
  else
    let intentId := kec sender amount countryCode txRef
    if (s.intents intentId).user ≠ 0 then Except.error EscrowError.IntentAlreadyExists
    else Except.ok (intentId,
      [Step.transferIn sender amount,
       Step.consumeTxRef txRef,
       Step.storeIntent intentId
         { user := sender, amount := amount, countryCode := countryCode,
           txRef := txRef, timestamp := blockTimestamp, status := MintStatus.Pending }])

/-- `executeMint` of MintEscrow.sol.  `isCompliant` is the external
UserRegistry oracle; `blockTimestamp` is `block.timestamp`. -/
def executeMint (s : EscrowState) (caller : Nat) (intentId : Nat)
    (isCompliant : Nat → Bool) (blockTimestamp : Nat) :
    Except EscrowError (List Step) :=
  if s.paused then Except.error EscrowError.EnforcedPause
  else if s.executors caller = false then Except.error EscrowError.AccessControlUnauthorized
  else
    let intent := s.intents intentId
    if intent.user = 0 then Except.error EscrowError.IntentNotFound
    else if intent.status ≠ MintStatus.Pending then Except.error EscrowError.IntentAlreadyExecuted
    else if isCompliant intent.user = false then Except.error EscrowError.UserNotCompliant
    else
      let tokenAddr := s.countryTokens intent.countryCode
      if tokenAddr = 0 then Except.error EscrowError.CountryTokenNotConfigured
      else
        let dayBucket := blockTimestamp / 86400
        let available := availableMintingCapacity s dayBucket
        if available < intent.amount then Except.error EscrowError.DailyLimitExceeded
        else Except.ok
          [Step.setStatus intentId MintStatus.Executed,
           Step.incDaily dayBucket intent.amount,
           Step.callMint tokenAddr intent.user intent.amount]

/-- `refundIntent` of MintEscrow.sol (no whenNotPaused modifier). -/
def refundIntent (s : EscrowState) (caller : Nat) (intentId : Nat)
    (_reason : String) : Except EscrowError (List Step) :=
  if s.executors caller = false then Except.error EscrowError.AccessControlUnauthorized
  else
    let intent := s.intents intentId
    if intent.user = 0 then Except.error EscrowError.IntentNotFound
    else if intent.status ≠ MintStatus.Pending then Except.error EscrowError.IntentAlreadyExecuted
    else Except.ok
      [Step.setStatus intentId MintStatus.Refunded,
       Step.transferOut intent.user intent.amount]

/-- One external call into the contract, with its caller, block timestamp
and (for executeMint) the oracle answer in force at that moment. -/
inductive EscrowCall
  | submit (sender amount countryCode txRef ts : Nat)
  | execute (caller intentId : Nat) (isCompliant : Nat → Bool) (ts : Nat)
  | refund (caller intentId : Nat) (reason : String)

/-- Transaction semantics: a successful call applies its effect trace, a
reverted call leaves storage unchanged. -/
def runEscrowCall (kec : Nat → Nat → Nat → Nat → Nat) (s : EscrowState) :
    EscrowCall → EscrowState
  | EscrowCall.submit sender amount code ref ts =>
      match submitIntent s kec sender amount code ref ts with
      | Except.ok (_, steps) => applySteps s steps
      | Except.error _ => s
  | EscrowCall.execute caller id comp ts =>
      match executeMint s caller id comp ts with
      | Except.ok steps => applySteps s steps
      | Except.error _ => s
  | EscrowCall.refund caller id reason =>
      match refundIntent s caller id reason with
      | Except.ok steps => applySteps s steps
      | Except.error _ => s

def runEscrowCalls (kec : Nat → Nat → Nat → Nat → Nat) (s : EscrowState)
    (cs : List EscrowCall) : EscrowState :=
  cs.foldl (runEscrowCall kec) s

/-- Does call `c`, run from state `s`, perform a successful terminal
transition (executeMint or refundIntent) of intent `id`? -/
def terminalSuccessOn (s : EscrowState)
    (c : EscrowCall) (id : Nat) : Bool :=
  match c with
  | EscrowCall.submit _ _ _ _ _ => false
  | EscrowCall.execute caller id2 comp ts =>
      id2 = id && (match executeMint s caller id2 comp ts with
                   | Except.ok _ => true
                   | Except.error _ => false)
  | EscrowCall.refund caller id2 reason =>
      id2 = id && (match refundIntent s caller id2 reason with
                   | Except.ok _ => true
                   | Except.error _ => false)

/-- Number of successful terminal transitions of intent `id` along a call
sequence starting from `s`. -/
def countTerminal (kec : Nat → Nat → Nat → Nat → Nat) :
    EscrowState → Nat → List EscrowCall → Nat
  | _, _, [] => 0
  | s, id, c :: cs =>
      (if terminalSuccessOn s c id then 1 else 0) +
        countTerminal kec (runEscrowCall kec s c) id cs

/-! ## HMAC authenticity verifier (api/internal/hmacauth/middleware.go)

The MAC itself (`computeSignature`: lowercase hex of HMAC-SHA-256 over the
timestamp string followed by the body bytes) is kept abstract as a function
`mac secret timestamp body`; every property proved below holds for the real
MAC because nothing is assumed about it.  Header values are Strings, with ""
standing for an absent header exactly as in `http.Header.Get`.  Times are
Int nanoseconds since the epoch; `MaxSkew` is an Int duration. -/

inductive AuthError
  | MissingSignature
  | MissingTimestamp
  | StaleTimestamp
  | InvalidSignature
deriving DecidableEq

def authErrText : AuthError → String
  | AuthError.MissingSignature => "missing request signature"
  | AuthError.MissingTimestamp => "missing request timestamp"
  | AuthError.StaleTimestamp => "stale request timestamp"
  | AuthError.InvalidSignature => "invalid request signature"

/-- Decimal digit accumulator for `strconv.ParseInt`. -/
def digitsVal : List Char → Nat → Option Nat
  | [], acc => some acc
  | c :: cs, acc =>
      if c.isDigit then digitsVal cs (acc * 10 + (c.toNat - 48)) else none

/-- `strconv.ParseInt(s, 10, 64)`: optional sign, one or more decimal
digits, value within the signed 64-bit range; `none` on any parse or range
error. -/
def parseInt64 (s : String) : Option Int :=
  match s.toList with
  | [] => none
  | c :: cs =>
    let signed : Bool × List Char :=
      if c = '-' then (true, cs)
      else if c = '+' then (false, cs)
      else (false, c :: cs)
    match signed.2 with
    | [] => none
    | ds =>
      match digitsVal ds 0 with
      | none => none
      | some n =>
        let v : Int := if signed.1 then -(n : Int) else (n : Int)
        if v < -(2 ^ 63) ∨ (2 ^ 63) - 1 < v then none else some v

/-- `Verifier.verify` of middleware.go.  `now` is the verifier clock in
nanoseconds; the request timestamp `ts` (seconds) becomes `time.Unix(ts, 0)`,
i.e. `ts * 1e9` nanoseconds. -/
def verify (mac : String → String → String → String) (secret : String)
    (maxSkew : Int) (now : Int) (sigHeader tsHeader body : String) :
    Except AuthError Unit :=
  if secret = "" then Except.ok ()
  else if sigHeader = "" then Except.error AuthError.MissingSignature
  else if tsHeader = "" then Except.error AuthError.MissingTimestamp
  else
    match parseInt64 tsHeader with
    | none => Except.error AuthError.MissingTimestamp
    | some ts =>
      if maxSkew < now - ts * 1000000000 ∨ maxSkew < ts * 1000000000 - now then
        Except.error AuthError.StaleTimestamp
      else if mac secret tsHeader body ≠ sigHeader then
        Except.error AuthError.InvalidSignature
      else Except.ok ()

/-- An inbound request as the verifier sees it: the two header values and
the raw body. -/
structure AuthRequest where
  sigHeader : String
  tsHeader : String
  body : String
deriving DecidableEq

structure HttpReply where
  status : Nat
  body : String
deriving DecidableEq

/-- `Verifier.Middleware`: a failed verification answers 401 with the error
text (http.Error appends a newline); a passed one forwards the request,
body intact, to the downstream handler. -/
def middlewareRun (mac : String → String → String → String) (secret : String)
    (maxSkew : Int) (now : Int) (next : AuthRequest → HttpReply)
    (r : AuthRequest) : HttpReply :=
  match verify mac secret maxSkew now r.sigHeader r.tsHeader r.body with
  | Except.ok _ => next r
  | Except.error e => { status := 401, body := authErrText e ++ "\n" }

/-- Does the timestamp header hold a parseable value whose distance from
`now` exceeds `maxSkew` in either direction? -/
def skewExceeded (maxSkew now : Int) (tsHeader : String) : Bool :=
  match parseInt64 tsHeader with
  | none => false
  | some ts =>
      decide (maxSkew < now - ts * 1000000000 ∨ maxSkew < ts * 1000000000 - now)

/-! ## Settlement retry loop and server handlers (internal/server)

The escrow client is a function `exec` from the (1-indexed) attempt number to
that attempt's outcome; `cancelled i` says whether the caller's context is
done during the backoff wait after attempt `i`.  Error values are their Go
error strings. -/

/-- Contiguous-sublist test on character lists, `strings.Contains`. -/
def startsWithChars : List Char → List Char → Bool
  | _, [] => true
  | [], _ :: _ => false
  | a :: h, b :: n => a = b && startsWithChars h n

def hasSubChars : List Char → List Char → Bool
  | [], n => n.isEmpty
  | a :: t, n => startsWithChars (a :: t) n || hasSubChars t n

def containsSub (s sub : String) : Bool :=
  hasSubChars s.toList sub.toList

def lowerStr (s : String) : String :=
  String.mk (s.toList.map Char.toLower)

/-- `isRetryable` of server.go: every error is retryable except ones whose
message contains "UserNotCompliant" or whose lowercased message contains
"invalid" (nil errors are not retryable). -/
def isRetryable (err : Option String) : Bool :=
  match err with
  | none => false
  | some msg =>
    if containsSub msg "UserNotCompliant" then false
    else if containsSub (lowerStr msg) "invalid" then false
    else true

/-- `config.Retry` (Go ints and Durations, hence Int; backoffs in
nanoseconds). -/
structure RetryConfig where
  maxAttempts : Int
  initialBackoff : Int
  maxBackoff : Int
  backoffMultiplier : Int

inductive RetryOutcome
  | success (txHash : String)
  | failure (err : String)
  | cancelled (err : String)
deriving DecidableEq

/-- The `for i := 1; i <= attempts; i++` body of `executeMintWithRetry`.
`fuel` counts the loop iterations still permitted (`attempts - i + 1` at
entry); exhausting it reproduces the post-loop "exhausted retries" return.
Returns the outcome plus the index of the last attempt performed. -/
def retryGo (exec : Nat → Except String String) (cancelled : Nat → Bool)
    (attempts : Nat) (maxBackoff mult : Int) :
    Nat → Nat → Int → RetryOutcome × Nat
  | 0, i, _ => (RetryOutcome.failure "exhausted retries", i - 1)
  | fuel + 1, i, backoff =>
    match exec i with
    | Except.ok resp => (RetryOutcome.success resp, i)
    | Except.error err =>
      if isRetryable (some err) = false ∨ i = attempts then
        (RetryOutcome.failure err, i)
      else if cancelled i then (RetryOutcome.cancelled "context canceled", i)
      else
        let nextBackoff := if 1 < mult then backoff * mult else backoff
        retryGo exec cancelled attempts maxBackoff mult fuel (i + 1) nextBackoff

/-- `executeMintWithRetry` of server.go (the sleep duration
`min(backoff, maxBackoff)` passes time but carries no other effect, so only
the cancellation signal of each wait is observable in the model). -/
def executeMintWithRetry (cfg : RetryConfig) (exec : Nat → Except String String)
    (cancelled : Nat → Bool) : RetryOutcome × Nat :=
  let attempts : Nat := if cfg.maxAttempts ≤ 0 then 1 else cfg.maxAttempts.toNat
  let backoff : Int := if cfg.initialBackoff ≤ 0 then 500000000 else cfg.initialBackoff
  retryGo exec cancelled attempts cfg.maxBackoff cfg.backoffMultiplier attempts 1 backoff

/-! ### Idempotency store (internal/idempotency) and the two handlers -/

/-- `idempotency.Record`. -/
structure IdemRecord where
  statusCode : Nat
  response : String
  createdAt : Int
  expiresAt : Int
deriving DecidableEq

/-- `Store.Get` (MemoryStore/FileStore semantics): a stored record past its
expiry reads as absent. -/
def storeGet (data : String → Option IdemRecord) (now : Int) (key : String) :
    Option IdemRecord :=
  match data key with
  | none => none
  | some record => if record.expiresAt < now then none else some record

/-- `Store.Save`: unconditional upsert. -/
def storeSave (data : String → Option IdemRecord) (key : String)
    (record : IdemRecord) : String → Option IdemRecord :=
  fun k => if k = key then some record else data k

/-- `mpesaCallbackRequest` (decoded JSON body). -/
structure MpesaRequest where
  intentId : String
  txRef : String
  userAddress : String
  amount : String
deriving DecidableEq

/-- `mintIntentRequest` (decoded JSON body). -/
structure MintRequest where
  userAddress : String
  amount : String
  countryCode : String
  txRef : String
deriving DecidableEq

/-- `escrow.SubmitIntentResponse`. -/
structure SubmitResult where
  intentId : String
  txHash : String
deriving DecidableEq

/-- A DLQ file written by `writeDLQ`: timestamp, the full original payload,
and the final error string. -/
structure DLQEntry where
  timestamp : Int
  payloadIntentId : String
  payloadTxRef : String
  payloadUserAddress : String
  payloadAmount : String
  errText : String
deriving DecidableEq

/-- `writeDLQ` of server.go: appends one entry unless no DLQ path is
configured (marshal/mkdir/write failures are logged and ignored). -/
def writeDLQ (dlqPath : String) (dlq : List DLQEntry) (now : Int)
    (p : MpesaRequest) (errText : String) : List DLQEntry :=
  if dlqPath = "" then dlq
  else dlq ++ [{ timestamp := now, payloadIntentId := p.intentId,
                 payloadTxRef := p.txRef, payloadUserAddress := p.userAddress,
                 payloadAmount := p.amount, errText := errText }]

/-- `json.Marshal` of `mpesaCallbackResponse` (field order of the struct;
txHash carries omitempty). -/
def renderMpesaResponse (status intentId txHash : String) : String :=
  "\x7b\"status\":\"" ++ status ++ "\",\"intentId\":\"" ++ intentId ++ "\"" ++
    (if txHash = "" then "" else ",\"txHash\":\"" ++ txHash ++ "\"") ++ "\x7d"

/-- `json.Marshal` of `mintIntentResponse`. -/
def renderMintResponse (intentId status txHash : String) : String :=
  "\x7b\"intentId\":\"" ++ intentId ++ "\",\"status\":\"" ++ status ++ "\"" ++
    (if txHash = "" then "" else ",\"txHash\":\"" ++ txHash ++ "\"") ++ "\x7d"

/-- Observable side calls of the mint-intents handler. -/
inductive ServerEvent
  | escrowSubmit (req : MintRequest)
deriving DecidableEq

/-- ASCII whitespace, as trimmed by `strings.TrimSpace` (the unicode cases
do not occur in header values). -/
def isSpaceChar (c : Char) : Bool :=
  c = ' ' ∨ c = '\t' ∨ c = '\n' ∨ c = '\r'

def dropLeadingSpace : List Char → List Char
  | [] => []
  | c :: cs => if isSpaceChar c then dropLeadingSpace cs else c :: cs

/-- `strings.TrimSpace` on header values. -/
def trimStr (s : String) : String :=
  String.mk ((dropLeadingSpace (dropLeadingSpace s.toList).reverse).reverse)

/-- `handleMintIntents` of server.go as a function of the request and the
idempotency data: returns the new store contents, the HTTP reply, and the
escrow invocations performed.  `body` is the decoded JSON payload (`none`
for an undecodable body); `submit` is `escrow.Client.SubmitIntent`. -/
def handleMintIntents (window : Int)
    (submit : MintRequest → Except String SubmitResult)
    (store : String → Option IdemRecord) (method keyHeader : String)
    (body : Option MintRequest) (now : Int) :
    (String → Option IdemRecord) × HttpReply × List ServerEvent :=
  if method ≠ "POST" then (store, { status := 405, body := "method not allowed\n" }, [])
  else
    let key := trimStr keyHeader
    if key = "" then
      (store, { status := 400, body := "missing X-Idempotency-Key header\n" }, [])
    else
      match storeGet store now key with
      | some record => (store, { status := record.statusCode, body := record.response }, [])
      | none =>
        match body with
        | none => (store, { status := 400, body := "invalid json payload\n" }, [])
        | some p =>
          if p.userAddress = "" then (store, { status := 400, body := "userAddress is required\n" }, [])
          else if p.amount = "" then (store, { status := 400, body := "amount is required\n" }, [])
          else if p.countryCode = "" then (store, { status := 400, body := "countryCode is required\n" }, [])
          else if p.txRef = "" then (store, { status := 400, body := "txRef is required\n" }, [])
          else
            match submit p with
            | Except.error e =>
                (store, { status := 502, body := "failed to submit intent: " ++ e ++ "\n" },
                 [ServerEvent.escrowSubmit p])
            | Except.ok result =>
                let respBody := renderMintResponse result.intentId "submitted" result.txHash
                let record : IdemRecord :=
                  { statusCode := 201, response := respBody, createdAt := now,
                    expiresAt := now + window }
                (storeSave store key record, { status := 201, body := respBody },
                 [ServerEvent.escrowSubmit p])

/-- `handleMpesaCallback` of server.go: method check, JSON decode, field
validation, namespaced idempotency lookup, then the retry loop; any error
from the loop (the caller's cancellation included) is handed to `writeDLQ`
and answered 500, while success caches and returns the rendered response. -/
def handleMpesaCallback (window : Int) (dlqPath : String) (cfg : RetryConfig)
    (exec : Nat → Except String String) (cancelled : Nat → Bool)
    (store : String → Option IdemRecord) (dlq : List DLQEntry)
    (method : String) (body : Option MpesaRequest) (now : Int) :
    (String → Option IdemRecord) × List DLQEntry × HttpReply :=
  if method ≠ "POST" then (store, dlq, { status := 405, body := "method not allowed\n" })
  else
    match body with
    | none => (store, dlq, { status := 400, body := "invalid json payload\n" })
    | some p =>
      if p.intentId = "" then (store, dlq, { status := 400, body := "intentId is required\n" })
      else if p.txRef = "" then (store, dlq, { status := 400, body := "txRef is required\n" })
      else if p.userAddress = "" then (store, dlq, { status := 400, body := "userAddress is required\n" })
      else if p.amount = "" then (store, dlq, { status := 400, body := "amount is required\n" })
      else
        let key := "mpesa:" ++ p.txRef
        match storeGet store now key with
        | some record => (store, dlq, { status := record.statusCode, body := record.response })
        | none =>
          match executeMintWithRetry cfg exec cancelled with
          | (RetryOutcome.success txHash, _) =>
            let respBody := renderMpesaResponse "processed" p.intentId txHash
            let record : IdemRecord :=
              { statusCode := 200, response := respBody, createdAt := now,
                expiresAt := now + window }
            (storeSave store key record, dlq, { status := 200, body := respBody })
          | (RetryOutcome.failure err, _) =>
            (store, writeDLQ dlqPath dlq now p err,
             { status := 500, body := "failed to execute mint: " ++ err ++ "\n" })
          | (RetryOutcome.cancelled err, _) =>
            (store, writeDLQ dlqPath dlq now p err,
             { status := 500, body := "failed to execute mint: " ++ err ++ "\n" })

/-! ## Shared inversion and preservation lemmas -/

/-- Inverting a successful executeMint: every guard passed and the effect
trace is exactly status flip, accumulator bump, external mint, in that
order. -/
theorem executeMint_ok_inv {s : EscrowState} {caller intentId ts : Nat}
    {comp : Nat → Bool} {steps : List Step}
    (h : executeMint s caller intentId comp ts = Except.ok steps) :
    s.paused = false ∧ s.executors caller = true ∧
    (s.intents intentId).user ≠ 0 ∧
    (s.intents intentId).status = MintStatus.Pending ∧
    comp (s.intents intentId).user = true ∧
    s.countryTokens (s.intents intentId).countryCode ≠ 0 ∧
    (s.intents intentId).amount ≤ availableMintingCapacity s (ts / 86400) ∧
    steps = [Step.setStatus intentId MintStatus.Executed,
             Step.incDaily (ts / 86400) (s.intents intentId).amount,
             Step.callMint (s.countryTokens (s.intents intentId).countryCode)
               (s.intents intentId).user (s.intents intentId).amount] := by
  simp only [executeMint] at h
  split_ifs at h with h1 h2 h3 h4 h5 h6 h7
  simp only [Except.ok.injEq] at h
  refine ⟨?_, ?_, h3, ?_, ?_, h6, ?_, h.symm⟩
  · simpa using h1
  · simpa using h2
  · simpa using h4
  · simpa using h5
  · omega

/-- Inverting a successful refundIntent. -/
theorem refundIntent_ok_inv {s : EscrowState} {caller intentId : Nat}
    {reason : String} {steps : List Step}
    (h : refundIntent s caller intentId reason = Except.ok steps) :
    s.executors caller = true ∧
    (s.intents intentId).user ≠ 0 ∧
    (s.intents intentId).status = MintStatus.Pending ∧
    steps = [Step.setStatus intentId MintStatus.Refunded,
             Step.transferOut (s.intents intentId).user (s.intents intentId).amount] := by
  simp only [refundIntent] at h
  split_ifs at h with h1 h2 h3
  simp only [Except.ok.injEq] at h
  refine ⟨?_, h2, ?_, h.symm⟩
  · simpa using h1
  · simpa using h3

/-- Inverting a successful submitIntent. -/
theorem submitIntent_ok_inv {s : EscrowState} {kec : Nat → Nat → Nat → Nat → Nat}
    {sender amount code txRef ts intentId : Nat} {steps : List Step}
    (h : submitIntent s kec sender amount code txRef ts = Except.ok (intentId, steps)) :
    s.paused = false ∧ s.stablecoin ≠ 0 ∧ s.userRegistry ≠ 0 ∧
    MIN_MINT_AMOUNT ≤ amount ∧ amount ≤ MAX_MINT_AMOUNT ∧
    code ≠ 0 ∧ s.countryTokens code ≠ 0 ∧ txRef ≠ 0 ∧
    s.txRefConsumed txRef = false ∧
    intentId = kec sender amount code txRef ∧
    (s.intents intentId).user = 0 ∧
    steps = [Step.transferIn sender amount,
             Step.consumeTxRef txRef,
             Step.storeIntent intentId
               { user := sender, amount := amount, countryCode := code,
                 txRef := txRef, timestamp := ts, status := MintStatus.Pending }] := by
  simp only [submitIntent] at h
  split_ifs at h with h1 h2 h3 h4 h5 h6 h7 h8 h9
  simp only [Except.ok.injEq, Prod.mk.injEq] at h
  obtain ⟨hid, hsteps⟩ := h
  subst hid
  refine ⟨?_, h2, h3, ?_, ?_, h5, h6, h7, ?_, rfl, ?_, hsteps.symm⟩
  · simpa using h1
  · omega
  · omega
  · simpa using h8
  · simpa using h9

/-- Once an intent exists and is out of Pending, executeMint reverts with
IntentAlreadyExecuted (for an authorized caller of the unpaused contract). -/
theorem executeMint_already {s : EscrowState} {caller id ts : Nat} {comp : Nat → Bool}
    (hp : s.paused = false) (hx : s.executors caller = true)
    (hu : (s.intents id).user ≠ 0) (hst : (s.intents id).status ≠ MintStatus.Pending) :
    executeMint s caller id comp ts = Except.error EscrowError.IntentAlreadyExecuted := by
  simp [executeMint, hp, hx, hu, hst]

/-- Same for refundIntent. -/
theorem refundIntent_already {s : EscrowState} {caller id : Nat} {reason : String}
    (hx : s.executors caller = true)
    (hu : (s.intents id).user ≠ 0) (hst : (s.intents id).status ≠ MintStatus.Pending) :
    refundIntent s caller id reason = Except.error EscrowError.IntentAlreadyExecuted := by
  simp [refundIntent, hx, hu, hst]

/-- No call touches the stored record of an intent that exists and is
already terminal. -/
theorem runEscrowCall_intents_preserved {kec : Nat → Nat → Nat → Nat → Nat}
    {s : EscrowState} {id : Nat} (c : EscrowCall)
    (hu : (s.intents id).user ≠ 0) (hst : (s.intents id).status ≠ MintStatus.Pending) :
    (runEscrowCall kec s c).intents id = s.intents id := by
  cases c with
  | submit sender amount code ref ts =>
    cases hres : submitIntent s kec sender amount code ref ts with
    | error e => simp [runEscrowCall, hres]
    | ok pr =>
      obtain ⟨id2, steps⟩ := pr
      obtain ⟨-, -, -, -, -, -, -, -, -, -, huser0, hsteps⟩ := submitIntent_ok_inv hres
      have hne : id ≠ id2 := by
        intro hEq
        exact hu (by rw [hEq]; exact huser0)
      subst hsteps
      simp [runEscrowCall, hres, applySteps, applyStep, hne]
  | execute caller id2 comp ts =>
    cases hres : executeMint s caller id2 comp ts with
    | error e => simp [runEscrowCall, hres]
    | ok steps =>
      obtain ⟨-, -, -, hpend, -, -, -, hsteps⟩ := executeMint_ok_inv hres
      have hne : id ≠ id2 := by
        intro hEq
        exact hst (by rw [hEq]; exact hpend)
      subst hsteps
      simp [runEscrowCall, hres, applySteps, applyStep, hne]
  | refund caller id2 reason =>
    cases hres : refundIntent s caller id2 reason with
    | error e => simp [runEscrowCall, hres]
    | ok steps =>
      obtain ⟨-, -, hpend, hsteps⟩ := refundIntent_ok_inv hres
      have hne : id ≠ id2 := by
        intro hEq
        exact hst (by rw [hEq]; exact hpend)
      subst hsteps
      simp [runEscrowCall, hres, applySteps, applyStep, hne]

/-- A successful terminal transition of `id` requires that `id` exists and
is Pending at the moment of the call. -/
theorem terminalSuccessOn_pending {s : EscrowState} {c : EscrowCall} {id : Nat}
    (h : terminalSuccessOn s c id = true) :
    (s.intents id).user ≠ 0 ∧ (s.intents id).status = MintStatus.Pending := by
  cases c with
  | submit sender amount code ref ts => simp [terminalSuccessOn] at h
  | execute caller id2 comp ts =>
    simp only [terminalSuccessOn, Bool.and_eq_true, decide_eq_true_eq] at h
    obtain ⟨hEq, h2⟩ := h
    subst hEq
    cases hres : executeMint s caller id2 comp ts with
    | error e => rw [hres] at h2; simp at h2
    | ok steps =>
      obtain ⟨-, -, hu, hpend, -⟩ := executeMint_ok_inv hres
      exact ⟨hu, hpend⟩
  | refund caller id2 reason =>
    simp only [terminalSuccessOn, Bool.and_eq_true, decide_eq_true_eq] at h
    obtain ⟨hEq, h2⟩ := h
    subst hEq
    cases hres : refundIntent s caller id2 reason with
    | error e => rw [hres] at h2; simp at h2
    | ok steps =>
      obtain ⟨-, hu, hpend, -⟩ := refundIntent_ok_inv hres
      exact ⟨hu, hpend⟩

/-- After a successful terminal transition the record still exists and its
status is terminal (Executed or Refunded, hence not Pending). -/
theorem terminalSuccessOn_after {kec : Nat → Nat → Nat → Nat → Nat}
    {s : EscrowState} {c : EscrowCall} {id : Nat}
    (h : terminalSuccessOn s c id = true) :
    ((runEscrowCall kec s c).intents id).user ≠ 0 ∧
    ((runEscrowCall kec s c).intents id).status ≠ MintStatus.Pending := by
  cases c with
  | submit sender amount code ref ts => simp [terminalSuccessOn] at h
  | execute caller id2 comp ts =>
    simp only [terminalSuccessOn, Bool.and_eq_true, decide_eq_true_eq] at h
    obtain ⟨hEq, h2⟩ := h
    subst hEq
    cases hres : executeMint s caller id2 comp ts with
    | error e => rw [hres] at h2; simp at h2
    | ok steps =>
      obtain ⟨-, -, hu, -, -, -, -, hsteps⟩ := executeMint_ok_inv hres
      subst hsteps
      refine ⟨?_, ?_⟩ <;> simp [runEscrowCall, hres, applySteps, applyStep, hu]
  | refund caller id2 reason =>
    simp only [terminalSuccessOn, Bool.and_eq_true, decide_eq_true_eq] at h
    obtain ⟨hEq, h2⟩ := h
    subst hEq
    cases hres : refundIntent s caller id2 reason with
    | error e => rw [hres] at h2; simp at h2
    | ok steps =>
      obtain ⟨-, hu, -, hsteps⟩ := refundIntent_ok_inv hres
      subst hsteps
      refine ⟨?_, ?_⟩ <;> simp [runEscrowCall, hres, applySteps, applyStep, hu]

/-- No further terminal transition of `id` succeeds once `id` exists with a
terminal status. -/
theorem countTerminal_zero_of_terminal {kec : Nat → Nat → Nat → Nat → Nat}
    {s : EscrowState} {id : Nat}
    (hu : (s.intents id).user ≠ 0) (hst : (s.intents id).status ≠ MintStatus.Pending) :
    ∀ cs : List EscrowCall, countTerminal kec s id cs = 0 := by
  intro cs
  induction cs generalizing s with
  | nil => rfl
  | cons c cs ih =>
    have hnot : terminalSuccessOn s c id = false := by
      cases hts : terminalSuccessOn s c id with
      | false => rfl
      | true => exact absurd (terminalSuccessOn_pending hts).2 hst
    have hpres := @runEscrowCall_intents_preserved kec s id c hu hst
    simp only [countTerminal, hnot, if_false, Bool.false_eq_true, zero_add]
    exact ih (by rw [hpres]; exact hu) (by rw [hpres]; exact hst)

/-! ## Concrete states used by the witnesses -/

/-- A configured, unpaused escrow holding one Pending intent (id 5, user 7,
minimum amount, market 3 whose token is 9); address 4 is an executor. -/
def escrowStateA : EscrowState :=
  { stablecoin := 1, userRegistry := 2,
    intents := fun k =>
      if k = 5 then
        { user := 7, amount := MIN_MINT_AMOUNT, countryCode := 3, txRef := 11,
          timestamp := 0, status := MintStatus.Pending }
      else emptyIntent,
    txRefConsumed := fun _ => false,
    countryTokens := fun k => if k = 3 then 9 else 0,
    dailyMinted := fun _ => 0,
    paused := false,
    executors := fun k => if k = 4 then true else false }

/-- The same escrow after intent 5 reached the Executed terminal state. -/
def escrowStateB : EscrowState :=
  { escrowStateA with
    intents := fun k =>
      if k = 5 then
        { user := 7, amount := MIN_MINT_AMOUNT, countryCode := 3, txRef := 11,
          timestamp := 0, status := MintStatus.Executed }
      else emptyIntent }

/-! ## C1: effects before interactions in executeMint -/

/-- C1: a successful executeMint passed the existence/Pending check, the
compliance check and the daily-cap check, and its effect trace sets the
status to Executed and bumps the day bucket before the external
destination-asset mint; wherever the mint call sits in the trace, the state
already reached by the preceding effects has the intent Executed and the
accumulator incremented, so no path reaches the mint while the intent is
still Pending (reverted calls produce no external calls at all). -/
theorem executeMint_effects_before_interactions
    (s : EscrowState) (caller intentId ts : Nat) (comp : Nat → Bool) (steps : List Step)
    (h : executeMint s caller intentId comp ts = Except.ok steps) :
    (s.intents intentId).user ≠ 0 ∧
    (s.intents intentId).status = MintStatus.Pending ∧
    comp (s.intents intentId).user = true ∧
    (s.intents intentId).amount ≤ availableMintingCapacity s (ts / 86400) ∧
    steps = [Step.setStatus intentId MintStatus.Executed,
             Step.incDaily (ts / 86400) (s.intents intentId).amount,
             Step.callMint (s.countryTokens (s.intents intentId).countryCode)
               (s.intents intentId).user (s.intents intentId).amount] ∧
    (∀ pre post token toAddr amount,
      steps = pre ++ Step.callMint token toAddr amount :: post →
      ((applySteps s pre).intents intentId).status = MintStatus.Executed ∧
      (applySteps s pre).dailyMinted (ts / 86400) =
        s.dailyMinted (ts / 86400) + (s.intents intentId).amount) := by
  obtain ⟨hp, hx, hu, hpend, hcomp, htok, hcap, hsteps⟩ := executeMint_ok_inv h
  refine ⟨hu, hpend, hcomp, hcap, hsteps, ?_⟩
  intro pre post token toAddr amount hsplit
  rw [hsteps] at hsplit
  cases pre with
  | nil => simp at hsplit
  | cons a pre1 =>
    cases pre1 with
    | nil => simp at hsplit
    | cons b pre2 =>
      cases pre2 with
      | cons c pre3 =>
        have hl := congrArg List.length hsplit
        simp only [List.length_cons, List.length_append, List.length_nil] at hl
        omega
      | nil =>
        simp only [List.cons_append, List.nil_append, List.cons.injEq] at hsplit
        obtain ⟨ha, hb, -⟩ := hsplit
        subst ha
        subst hb
        constructor
        · simp [applySteps, applyStep]
        · simp [applySteps, applyStep]

/-- C1 witness: a concrete successful execution of intent 5. -/
theorem executeMint_effects_before_interactions_witness :
    (escrowStateA.intents 5).status = MintStatus.Pending ∧
    ((applySteps escrowStateA
        [Step.setStatus 5 MintStatus.Executed,
         Step.incDaily 0 MIN_MINT_AMOUNT]).intents 5).status = MintStatus.Executed :=
  have h := executeMint_effects_before_interactions escrowStateA 4 5 0 (fun _ => true)
    [Step.setStatus 5 MintStatus.Executed,
     Step.incDaily 0 MIN_MINT_AMOUNT,
     Step.callMint 9 7 MIN_MINT_AMOUNT] rfl
  ⟨h.2.1, (h.2.2.2.2.2 [Step.setStatus 5 MintStatus.Executed, Step.incDaily 0 MIN_MINT_AMOUNT]
      [] 9 7 MIN_MINT_AMOUNT (by decide)).1⟩

/-! ## C2: at most one terminal transition per intent -/

/-- C2: along any sequence of contract calls, at most one executeMint or
refundIntent on a given intent id succeeds (Executed and Refunded being
single terminal values of one status field, the intent is never both); and
once the intent exists with a terminal status, executeMint and refundIntent
on it revert with IntentAlreadyExecuted and leave the state unchanged. -/
theorem intent_terminal_transition_once (kec : Nat → Nat → Nat → Nat → Nat)
    (s0 : EscrowState) (id : Nat) :
    (∀ cs : List EscrowCall, countTerminal kec s0 id cs ≤ 1) ∧
    ((s0.intents id).user ≠ 0 → (s0.intents id).status ≠ MintStatus.Pending →
      ∀ caller comp ts reason, s0.paused = false → s0.executors caller = true →
        executeMint s0 caller id comp ts = Except.error EscrowError.IntentAlreadyExecuted ∧
        refundIntent s0 caller id reason = Except.error EscrowError.IntentAlreadyExecuted ∧
        runEscrowCall kec s0 (EscrowCall.execute caller id comp ts) = s0 ∧
        runEscrowCall kec s0 (EscrowCall.refund caller id reason) = s0) := by
  constructor
  · intro cs
    induction cs generalizing s0 with
    | nil => simp [countTerminal]
    | cons c cs ih =>
      cases hts : terminalSuccessOn s0 c id with
      | false =>
        simp only [countTerminal, hts, Bool.false_eq_true, if_false, zero_add]
        exact ih _
      | true =>
        have hafter := @terminalSuccessOn_after kec s0 c id hts
        have hzero := @countTerminal_zero_of_terminal kec _ id hafter.1 hafter.2 cs
        simp [countTerminal, hts, hzero]
  · intro hu hst caller comp ts reason hp hx
    have he := @executeMint_already s0 caller id ts comp hp hx hu hst
    have hr := @refundIntent_already s0 caller id reason hx hu hst
    exact ⟨he, hr, by simp [runEscrowCall, he], by simp [runEscrowCall, hr]⟩

/-- C2 witness: on a state whose intent 5 is already Executed, a further
executeMint reverts with IntentAlreadyExecuted, and a concrete call
sequence performs at most one terminal transition. -/
theorem intent_terminal_transition_once_witness :
    executeMint escrowStateB 4 5 (fun _ => true) 0 =
      Except.error EscrowError.IntentAlreadyExecuted ∧
    countTerminal (fun _ _ _ _ => 0) escrowStateB 5
      [EscrowCall.refund 4 5 "late", EscrowCall.execute 4 5 (fun _ => true) 0] ≤ 1 :=
  have h := intent_terminal_transition_once (fun _ _ _ _ => 0) escrowStateB 5
  ⟨(h.2 (by decide) (by decide) 4 (fun _ => true) 0 "late" (by decide) (by decide)).1,
   h.1 _⟩

/-! ## C3: the daily cap is never exceeded -/

/-- One call preserves the per-bucket bound: only a successful executeMint
touches `dailyMinted`, and it checked its amount against the remaining
capacity first. -/
theorem runEscrowCall_daily_le {kec : Nat → Nat → Nat → Nat → Nat}
    {s : EscrowState} (c : EscrowCall)
    (hb : ∀ b, s.dailyMinted b ≤ DAILY_MINT_LIMIT) :
    ∀ b, (runEscrowCall kec s c).dailyMinted b ≤ DAILY_MINT_LIMIT := by
  intro b
  cases c with
  | submit sender amount code ref ts =>
    cases hres : submitIntent s kec sender amount code ref ts with
    | error e => simpa [runEscrowCall, hres] using hb b
    | ok pr =>
      obtain ⟨id2, steps⟩ := pr
      obtain ⟨-, -, -, -, -, -, -, -, -, -, -, hsteps⟩ := submitIntent_ok_inv hres
      subst hsteps
      simpa [runEscrowCall, hres, applySteps, applyStep] using hb b
  | execute caller id comp ts =>
    cases hres : executeMint s caller id comp ts with
    | error e => simpa [runEscrowCall, hres] using hb b
    | ok steps =>
      obtain ⟨-, -, -, -, -, -, hcap, hsteps⟩ := executeMint_ok_inv hres
      subst hsteps
      simp only [runEscrowCall, hres, applySteps, List.foldl, applyStep]
      by_cases hbb : b = ts / 86400
      · subst hbb
        simp only [if_pos rfl]
        revert hcap
        unfold availableMintingCapacity
        split_ifs with hle
        · intro hcap
          have := hb (ts / 86400)
          omega
        · intro hcap
          omega
      · simpa [hbb] using hb b
  | refund caller id reason =>
    cases hres : refundIntent s caller id reason with
    | error e => simpa [runEscrowCall, hres] using hb b
    | ok steps =>
      obtain ⟨-, -, -, hsteps⟩ := refundIntent_ok_inv hres
      subst hsteps
      simpa [runEscrowCall, hres, applySteps, applyStep] using hb b

/-- C3: from any state within the daily cap (the deployed contract starts
with all buckets at zero), no sequence of submitIntent, executeMint and
refundIntent calls pushes any day bucket above DAILY_MINT_LIMIT; a
successful executeMint implies its amount fit the remaining capacity and
is the only thing that increments the accumulator, exactly in that
successful call; reverted executions and the other operations leave the
accumulator untouched. -/
theorem daily_minted_never_exceeds_cap (kec : Nat → Nat → Nat → Nat → Nat)
    (s0 : EscrowState) (cs : List EscrowCall) (bucket : Nat)
    (h0 : ∀ b, s0.dailyMinted b ≤ DAILY_MINT_LIMIT) :
    (runEscrowCalls kec s0 cs).dailyMinted bucket ≤ DAILY_MINT_LIMIT ∧
    (∀ caller id comp ts steps,
      executeMint s0 caller id comp ts = Except.ok steps →
      (s0.intents id).amount ≤ availableMintingCapacity s0 (ts / 86400) ∧
      (runEscrowCall kec s0 (EscrowCall.execute caller id comp ts)).dailyMinted (ts / 86400) =
        s0.dailyMinted (ts / 86400) + (s0.intents id).amount) ∧
    (∀ caller id comp ts e,
      executeMint s0 caller id comp ts = Except.error e →
      runEscrowCall kec s0 (EscrowCall.execute caller id comp ts) = s0) ∧
    (∀ sender amount code ref ts b,
      (runEscrowCall kec s0 (EscrowCall.submit sender amount code ref ts)).dailyMinted b =
        s0.dailyMinted b) ∧
    (∀ caller id reason b,
      (runEscrowCall kec s0 (EscrowCall.refund caller id reason)).dailyMinted b =
        s0.dailyMinted b) := by
  refine ⟨?_, ?_, ?_, ?_, ?_⟩
  · induction cs generalizing s0 with
    | nil => exact h0 bucket
    | cons c cs ih =>
      exact ih (runEscrowCall kec s0 c) (runEscrowCall_daily_le c h0)
  · intro caller id comp ts steps hres
    obtain ⟨-, -, -, -, -, -, hcap, hsteps⟩ := executeMint_ok_inv hres
    subst hsteps
    exact ⟨hcap, by simp [runEscrowCall, hres, applySteps, applyStep]⟩
  · intro caller id comp ts e hres
    simp [runEscrowCall, hres]
  · intro sender amount code ref ts b
    cases hres : submitIntent s0 kec sender amount code ref ts with
    | error e => simp [runEscrowCall, hres]
    | ok pr =>
      obtain ⟨id2, steps⟩ := pr
      obtain ⟨-, -, -, -, -, -, -, -, -, -, -, hsteps⟩ := submitIntent_ok_inv hres
      subst hsteps
      simp [runEscrowCall, hres, applySteps, applyStep]
  · intro caller id reason b
    cases hres : refundIntent s0 caller id reason with
    | error e => simp [runEscrowCall, hres]
    | ok steps =>
      obtain ⟨-, -, -, hsteps⟩ := refundIntent_ok_inv hres
      subst hsteps
      simp [runEscrowCall, hres, applySteps, applyStep]

/-- C3 witness: a concrete sequence (one successful execution) stays within
the cap. -/
theorem daily_minted_never_exceeds_cap_witness :
    (runEscrowCalls (fun _ _ _ _ => 0) escrowStateA
      [EscrowCall.execute 4 5 (fun _ => true) 0]).dailyMinted 0 ≤ DAILY_MINT_LIMIT :=
  (daily_minted_never_exceeds_cap (fun _ _ _ _ => 0) escrowStateA
    [EscrowCall.execute 4 5 (fun _ => true) 0] 0 (fun _ => Nat.zero_le _)).1

/-! ## C4: submitIntent validation, success effects, failure purity -/

/-- C4: for a configured, unpaused escrow: an out-of-bounds amount reverts
with InvalidAmount; an unconfigured market always reverts; a consumed
payment reference reverts with TxRefAlreadyConsumed (once the earlier
guards pass); a colliding deterministic id reverts with IntentAlreadyExists;
every revert leaves the state untouched; and a success returns the
deterministic id with the trace debiting the depositor into escrow, marking
the reference consumed and storing the Pending intent. -/
theorem submitIntent_validation_and_success (kec : Nat → Nat → Nat → Nat → Nat)
    (s : EscrowState) (sender amount code txRef ts : Nat)
    (hp : s.paused = false) (hsc : s.stablecoin ≠ 0) (hur : s.userRegistry ≠ 0) :
    ((amount < MIN_MINT_AMOUNT ∨ MAX_MINT_AMOUNT < amount) →
      submitIntent s kec sender amount code txRef ts =
        Except.error EscrowError.InvalidAmount) ∧
    (s.countryTokens code = 0 →
      ∃ e, submitIntent s kec sender amount code txRef ts = Except.error e) ∧
    (MIN_MINT_AMOUNT ≤ amount → amount ≤ MAX_MINT_AMOUNT → code ≠ 0 →
     s.countryTokens code ≠ 0 → txRef ≠ 0 → s.txRefConsumed txRef = true →
      submitIntent s kec sender amount code txRef ts =
        Except.error EscrowError.TxRefAlreadyConsumed) ∧
    (MIN_MINT_AMOUNT ≤ amount → amount ≤ MAX_MINT_AMOUNT → code ≠ 0 →
     s.countryTokens code ≠ 0 → txRef ≠ 0 → s.txRefConsumed txRef = false →
     (s.intents (kec sender amount code txRef)).user ≠ 0 →
      submitIntent s kec sender amount code txRef ts =
        Except.error EscrowError.IntentAlreadyExists) ∧
    (∀ e, submitIntent s kec sender amount code txRef ts = Except.error e →
      runEscrowCall kec s (EscrowCall.submit sender amount code txRef ts) = s) ∧
    (∀ id steps, submitIntent s kec sender amount code txRef ts = Except.ok (id, steps) →
      id = kec sender amount code txRef ∧
      steps = [Step.transferIn sender amount, Step.consumeTxRef txRef,
               Step.storeIntent id
                 { user := sender, amount := amount, countryCode := code,
                   txRef := txRef, timestamp := ts, status := MintStatus.Pending }] ∧
      (runEscrowCall kec s (EscrowCall.submit sender amount code txRef ts)).txRefConsumed txRef = true ∧
      (runEscrowCall kec s (EscrowCall.submit sender amount code txRef ts)).intents id =
        { user := sender, amount := amount, countryCode := code,
          txRef := txRef, timestamp := ts, status := MintStatus.Pending }) := by
  refine ⟨?_, ?_, ?_, ?_, ?_, ?_⟩
  · intro hbad
    simp [submitIntent, hp, hsc, hur, hbad]
  · intro htok
    cases hres : submitIntent s kec sender amount code txRef ts with
    | error e => exact ⟨e, rfl⟩
    | ok pr =>
      obtain ⟨id2, steps⟩ := pr
      obtain ⟨-, -, -, -, -, -, htok2, -⟩ := submitIntent_ok_inv hres
      exact absurd htok htok2
  · intro hlo hhi hcode htok href hcons
    have hamt : ¬(amount < MIN_MINT_AMOUNT ∨ MAX_MINT_AMOUNT < amount) := by omega
    simp [submitIntent, hp, hsc, hur, hamt, hcode, htok, href, hcons]
  · intro hlo hhi hcode htok href hcons hid
    have hamt : ¬(amount < MIN_MINT_AMOUNT ∨ MAX_MINT_AMOUNT < amount) := by omega
    simp [submitIntent, hp, hsc, hur, hamt, hcode, htok, href, hcons, hid]
  · intro e h
    simp [runEscrowCall, h]
  · intro id steps h
    obtain ⟨-, -, -, -, -, -, -, -, -, hid, -, hsteps⟩ := submitIntent_ok_inv h
    subst hid
    subst hsteps
    refine ⟨rfl, rfl, ?_, ?_⟩ <;> simp [runEscrowCall, h, applySteps, applyStep]

/-- C4 witness: amount 0 is rejected with InvalidAmount; a well-formed
submission consumes its payment reference. -/
theorem submitIntent_validation_and_success_witness :
    submitIntent escrowStateA (fun _ _ _ _ => 77) 8 0 3 12 0 =
      Except.error EscrowError.InvalidAmount ∧
    (runEscrowCall (fun _ _ _ _ => 77) escrowStateA
      (EscrowCall.submit 8 MIN_MINT_AMOUNT 3 12 0)).txRefConsumed 12 = true :=
  have h1 := submitIntent_validation_and_success (fun _ _ _ _ => 77) escrowStateA
    8 0 3 12 0 rfl (by decide) (by decide)
  have h2 := submitIntent_validation_and_success (fun _ _ _ _ => 77) escrowStateA
    8 MIN_MINT_AMOUNT 3 12 0 rfl (by decide) (by decide)
  ⟨h1.1 (Or.inl (by decide)),
   (h2.2.2.2.2.2 77
     [Step.transferIn 8 MIN_MINT_AMOUNT, Step.consumeTxRef 12,
      Step.storeIntent 77
        { user := 8, amount := MIN_MINT_AMOUNT, countryCode := 3,
          txRef := 12, timestamp := 0, status := MintStatus.Pending }] rfl).2.2.1⟩

/-! ## C6: failed executions mutate nothing and stay retriable -/

/-- C6: on a Pending intent, a compliance failure reverts with
UserNotCompliant and a capacity shortfall reverts with DailyLimitExceeded,
in both cases leaving the whole state (status and accumulator included)
unchanged and performing no issuance; with state unchanged, a later call
under a compliant oracle and sufficient capacity succeeds. -/
theorem executeMint_business_failure_no_mutation (kec : Nat → Nat → Nat → Nat → Nat)
    (s : EscrowState) (caller id ts : Nat) (comp : Nat → Bool)
    (hp : s.paused = false) (hx : s.executors caller = true)
    (hu : (s.intents id).user ≠ 0) (hst : (s.intents id).status = MintStatus.Pending) :
    (comp (s.intents id).user = false →
      executeMint s caller id comp ts = Except.error EscrowError.UserNotCompliant ∧
      runEscrowCall kec s (EscrowCall.execute caller id comp ts) = s) ∧
    (comp (s.intents id).user = true →
     s.countryTokens (s.intents id).countryCode ≠ 0 →
     availableMintingCapacity s (ts / 86400) < (s.intents id).amount →
      executeMint s caller id comp ts = Except.error EscrowError.DailyLimitExceeded ∧
      runEscrowCall kec s (EscrowCall.execute caller id comp ts) = s) ∧
    (∀ comp2 : Nat → Bool, ∀ ts2 : Nat,
      comp2 (s.intents id).user = true →
      s.countryTokens (s.intents id).countryCode ≠ 0 →
      (s.intents id).amount ≤ availableMintingCapacity s (ts2 / 86400) →
      ∃ steps, executeMint s caller id comp2 ts2 = Except.ok steps) := by
  refine ⟨?_, ?_, ?_⟩
  · intro hc
    have herr : executeMint s caller id comp ts = Except.error EscrowError.UserNotCompliant := by
      simp [executeMint, hp, hx, hu, hst, hc]
    exact ⟨herr, by simp [runEscrowCall, herr]⟩
  · intro hc htok hcap
    have herr : executeMint s caller id comp ts = Except.error EscrowError.DailyLimitExceeded := by
      simp [executeMint, hp, hx, hu, hst, hc, htok, hcap]
    exact ⟨herr, by simp [runEscrowCall, herr]⟩
  · intro comp2 ts2 hc htok hle
    have hcap : ¬(availableMintingCapacity s (ts2 / 86400) < (s.intents id).amount) := by omega
    refine ⟨[Step.setStatus id MintStatus.Executed,
             Step.incDaily (ts2 / 86400) (s.intents id).amount,
             Step.callMint (s.countryTokens (s.intents id).countryCode)
               (s.intents id).user (s.intents id).amount], ?_⟩
    simp [executeMint, hp, hx, hu, hst, hc, htok, hcap]

/-- C6 witness: a non-compliant depositor makes executeMint revert with
UserNotCompliant on the concrete state, leaving it unchanged. -/
theorem executeMint_business_failure_no_mutation_witness :
    executeMint escrowStateA 4 5 (fun _ => false) 0 =
      Except.error EscrowError.UserNotCompliant ∧
    runEscrowCall (fun _ _ _ _ => 0) escrowStateA
      (EscrowCall.execute 4 5 (fun _ => false) 0) = escrowStateA :=
  (executeMint_business_failure_no_mutation (fun _ _ _ _ => 0) escrowStateA 4 5 0
    (fun _ => false) rfl (by decide) (by decide) (by decide)).1 rfl

/-! ## C10: the empty-secret bypass -/

/-- C10: when the configured secret is the empty string, `verify` returns
nil before reading any header, so every request — whatever its signature
and timestamp headers or body — passes verification and is forwarded to the
downstream handler: an empty secret disables authentication on that
channel. -/
theorem empty_secret_disables_auth (mac : String → String → String → String)
    (maxSkew now : Int) (sigHeader tsHeader body : String)
    (next : AuthRequest → HttpReply) (r : AuthRequest) :
    verify mac "" maxSkew now sigHeader tsHeader body = Except.ok () ∧
    middlewareRun mac "" maxSkew now next r = next r :=
  ⟨rfl, rfl⟩

/-! ## C8: the verifier's rejection condition -/

/-- C8 counterexample: with the configured secret empty, a request carrying
NO signature header (Go reads an absent header as "") passes verification
and is forwarded, though the claim requires a 401 whenever the signature
header is absent.  So the claimed "rejects exactly when" equivalence fails
without an assumption on the secret. -/
theorem verify_reject_iff_counterexample :
    verify (fun s t b => "deadbeef" ++ s ++ t ++ b) "" 60000000000 0 "" "" "" =
      Except.ok () ∧
    middlewareRun (fun s t b => "deadbeef" ++ s ++ t ++ b) "" 60000000000 0
      (fun _ => { status := 200, body := "ok" }) { sigHeader := "", tsHeader := "", body := "" } =
      { status := 200, body := "ok" } :=
  ⟨rfl, rfl⟩

/-- C8 (amended): provided the configured secret is non-empty, the verifier
rejects with a 401 auth error exactly when the signature header is absent,
or the timestamp header is absent or unparseable as a 64-bit integer, or
the timestamp's distance from now exceeds the maximum skew in either
direction, or the MAC over the timestamp string and body differs from the
supplied signature; otherwise the request reaches the downstream handler
unchanged, body included. -/
theorem verify_reject_iff (mac : String → String → String → String)
    (secret : String) (maxSkew now : Int) (sigHeader tsHeader bodyStr : String)
    (next : AuthRequest → HttpReply) (r : AuthRequest)
    (hs : secret ≠ "") :
    ((∃ e, verify mac secret maxSkew now sigHeader tsHeader bodyStr = Except.error e) ↔
      (sigHeader = "" ∨ parseInt64 tsHeader = none ∨
       skewExceeded maxSkew now tsHeader = true ∨
       mac secret tsHeader bodyStr ≠ sigHeader)) ∧
    (verify mac secret maxSkew now r.sigHeader r.tsHeader r.body = Except.ok () →
      middlewareRun mac secret maxSkew now next r = next r) := by
  constructor
  · unfold verify
    rw [if_neg hs]
    by_cases h1 : sigHeader = ""
    · simp [h1]
    · rw [if_neg h1]
      by_cases h2 : tsHeader = ""
      · have hp : parseInt64 tsHeader = none := by rw [h2]; rfl
        rw [if_pos h2]
        constructor
        · intro _
          exact Or.inr (Or.inl hp)
        · intro _
          exact ⟨AuthError.MissingTimestamp, rfl⟩
      · rw [if_neg h2]
        cases hp : parseInt64 tsHeader with
        | none =>
          constructor
          · intro _
            exact Or.inr (Or.inl rfl)
          · intro _
            exact ⟨AuthError.MissingTimestamp, rfl⟩
        | some ts =>
          dsimp only
          by_cases h3 : maxSkew < now - ts * 1000000000 ∨ maxSkew < ts * 1000000000 - now
          · rw [if_pos h3]
            constructor
            · intro _
              refine Or.inr (Or.inr (Or.inl ?_))
              simp [skewExceeded, hp, h3]
            · intro _
              exact ⟨AuthError.StaleTimestamp, rfl⟩
          · rw [if_neg h3]
            by_cases h4 : mac secret tsHeader bodyStr = sigHeader
            · rw [if_neg (not_not_intro h4)]
              constructor
              · rintro ⟨e, he⟩
                simp at he
              · rintro (hA | hB | hC | hD)
                · exact absurd hA h1
                · exact Option.noConfusion hB
                · simp [skewExceeded, hp, h3] at hC
                · exact absurd h4 hD
            · rw [if_pos h4]
              constructor
              · intro _
                exact Or.inr (Or.inr (Or.inr h4))
              · intro _
                exact ⟨AuthError.InvalidSignature, rfl⟩
  · intro hok
    simp [middlewareRun, hok]

/-- C8 amended witness: with secret "x", a request whose signature header is
absent is rejected. -/
theorem verify_reject_iff_witness :
    ∃ e, verify (fun _ _ _ => "h") "x" 60 0 "" "0" "" = Except.error e :=
  (verify_reject_iff (fun _ _ _ => "h") "x" 60 0 "" "0" ""
    (fun _ => { status := 200, body := "" })
    { sigHeader := "", tsHeader := "0", body := "" }
    (by decide)).1.mpr (Or.inl rfl)

/-! ## C5: retry classification -/

/-- The loop never reports a last-attempt index below the one it started at
(given fuel for at least one iteration). -/
theorem retryGo_snd_ge (exec : Nat → Except String String) (cancelled : Nat → Bool)
    (attempts : Nat) (mB mult : Int) :
    ∀ fuel i b, 1 ≤ fuel →
      i ≤ (retryGo exec cancelled attempts mB mult fuel i b).2 := by
  intro fuel
  induction fuel with
  | zero => intro i b h; omega
  | succ fuel ih =>
    intro i b _
    cases hexec : exec i with
    | ok r => simp [retryGo, hexec]
    | error e =>
      simp only [retryGo, hexec]
      split_ifs with h1 h2 h3
      · simp
      · simp
      · rcases Nat.eq_zero_or_pos fuel with hf | hf
        · subst hf
          simp [retryGo]
        · have := ih (i + 1) (b * mult) hf
          omega
      · rcases Nat.eq_zero_or_pos fuel with hf | hf
        · subst hf
          simp [retryGo]
        · have := ih (i + 1) b hf
          omega

/-- The observable result of the loop does not depend on the pending
backoff duration. -/
theorem retryGo_backoff_irrel (exec : Nat → Except String String) (cancelled : Nat → Bool)
    (attempts : Nat) (mB mult : Int) :
    ∀ fuel i b b2, retryGo exec cancelled attempts mB mult fuel i b =
      retryGo exec cancelled attempts mB mult fuel i b2 := by
  intro fuel
  induction fuel with
  | zero => intro i b b2; rfl
  | succ fuel ih =>
    intro i b b2
    cases hexec : exec i with
    | ok r => simp [retryGo, hexec]
    | error e =>
      simp only [retryGo, hexec]
      split_ifs with h1 h2 h3
      · rfl
      · rfl
      · exact ih (i + 1) _ _
      · exact ih (i + 1) _ _

/-- If every attempt before `i` failed with a retryable error and no wait
was cancelled, the loop reaches attempt `i` with the matching fuel. -/
theorem retryGo_reach (exec : Nat → Except String String) (cancelled : Nat → Bool)
    (attempts : Nat) (mB mult : Int) :
    ∀ i, 1 ≤ i → i ≤ attempts →
    (∀ j, 1 ≤ j → j < i →
      ∃ e, exec j = Except.error e ∧ isRetryable (some e) = true ∧ cancelled j = false) →
    ∀ b, ∃ b2, retryGo exec cancelled attempts mB mult attempts 1 b =
      retryGo exec cancelled attempts mB mult (attempts + 1 - i) i b2 := by
  intro i
  induction i with
  | zero => omega
  | succ n ih =>
    intro h1 hle hprev b
    rcases Nat.eq_zero_or_pos n with hn | hn
    · subst hn
      refine ⟨b, ?_⟩
      have : attempts + 1 - 1 = attempts := by omega
      rw [this]
    · obtain ⟨b2, hb2⟩ := ih hn (by omega) (fun j hj1 hj2 => hprev j hj1 (by omega)) b
      obtain ⟨e, hexec, hret, hcanc⟩ := hprev n hn (by omega)
      refine ⟨if 1 < mult then b2 * mult else b2, ?_⟩
      rw [hb2]
      have hfuel : attempts + 1 - n = (attempts - n) + 1 := by omega
      rw [hfuel]
      have hcond : ¬(isRetryable (some e) = false ∨ n = attempts) := by
        rintro (hf | hea)
        · rw [hret] at hf
          cases hf
        · omega
      simp only [retryGo, hexec]
      rw [if_neg hcond, if_neg (by rw [hcanc]; exact Bool.false_ne_true)]
      have : attempts + 1 - (n + 1) = attempts - n := by omega
      rw [this]

/-- C5 counterexample: the ledger-level terminal rejection
IntentAlreadyExecuted is classified retryable by isRetryable (it contains
neither marker substring), so with the seed retry settings the loop runs
all 6 attempts instead of aborting after the first, refuting the claim
that an AlreadyExecuted (or DailyLimitExceeded) error aborts immediately. -/
theorem retry_terminal_classification_counterexample :
    isRetryable (some "execute mint tx: IntentAlreadyExecuted") = true ∧
    isRetryable (some "execute mint tx: DailyLimitExceeded") = true ∧
    executeMintWithRetry
      { maxAttempts := 6, initialBackoff := 751000000,
        maxBackoff := 30000000000, backoffMultiplier := 2 }
      (fun _ => Except.error "execute mint tx: IntentAlreadyExecuted")
      (fun _ => false) =
      (RetryOutcome.failure "execute mint tx: IntentAlreadyExecuted", 6) := by
  refine ⟨by decide, by decide, by decide⟩

/-- C5 (amended): the loop classifies by message content alone — an error
whose message contains "UserNotCompliant" or whose lowercased message
contains "invalid" (e.g. a malformed intent id) aborts the loop at that
attempt with that error and triggers no further attempt, while any other
error (AlreadyExecuted and DailyLimitExceeded rejections included) on
attempts 1..maxAttempts-1 with an uncancelled wait triggers a further
attempt. -/
theorem retry_classification (cfg : RetryConfig) (exec : Nat → Except String String)
    (cancelled : Nat → Bool) (attempts : Nat)
    (hA : attempts = if cfg.maxAttempts ≤ 0 then 1 else cfg.maxAttempts.toNat) :
    (∀ i err, 1 ≤ i → i ≤ attempts →
      (∀ j, 1 ≤ j → j < i →
        ∃ e, exec j = Except.error e ∧ isRetryable (some e) = true ∧ cancelled j = false) →
      exec i = Except.error err → isRetryable (some err) = false →
      executeMintWithRetry cfg exec cancelled = (RetryOutcome.failure err, i)) ∧
    (∀ i err, 1 ≤ i → i < attempts →
      (∀ j, 1 ≤ j → j < i →
        ∃ e, exec j = Except.error e ∧ isRetryable (some e) = true ∧ cancelled j = false) →
      exec i = Except.error err → isRetryable (some err) = true → cancelled i = false →
      i + 1 ≤ (executeMintWithRetry cfg exec cancelled).2) := by
  have hrun : executeMintWithRetry cfg exec cancelled =
      retryGo exec cancelled attempts cfg.maxBackoff cfg.backoffMultiplier attempts 1
        (if cfg.initialBackoff ≤ 0 then 500000000 else cfg.initialBackoff) := by
    rw [hA]
    rfl
  constructor
  · intro i err h1 hle hprev hexec hterm
    obtain ⟨b2, hb2⟩ := retryGo_reach exec cancelled attempts cfg.maxBackoff
      cfg.backoffMultiplier i h1 hle hprev
      (if cfg.initialBackoff ≤ 0 then 500000000 else cfg.initialBackoff)
    rw [hrun, hb2]
    have hfuel : attempts + 1 - i = (attempts - i) + 1 := by omega
    rw [hfuel]
    simp only [retryGo, hexec]
    rw [if_pos (Or.inl hterm)]
  · intro i err h1 hlt hprev hexec hret hcanc
    obtain ⟨b2, hb2⟩ := retryGo_reach exec cancelled attempts cfg.maxBackoff
      cfg.backoffMultiplier i h1 (by omega) hprev
      (if cfg.initialBackoff ≤ 0 then 500000000 else cfg.initialBackoff)
    rw [hrun, hb2]
    have hfuel : attempts + 1 - i = (attempts - i) + 1 := by omega
    rw [hfuel]
    have hcond : ¬(isRetryable (some err) = false ∨ i = attempts) := by
      rintro (hf | hea)
      · rw [hret] at hf
        cases hf
      · omega
    simp only [retryGo, hexec]
    rw [if_neg hcond, if_neg (by rw [hcanc]; exact Bool.false_ne_true)]
    exact retryGo_snd_ge exec cancelled attempts cfg.maxBackoff cfg.backoffMultiplier
      (attempts - i) (i + 1) _ (by omega)

/-- C5 amended witness: a transient timeout on attempt 1 followed by a
malformed-id rejection on attempt 2 stops the loop at attempt 2 with that
error. -/
theorem retry_classification_witness :
    executeMintWithRetry
      { maxAttempts := 3, initialBackoff := 751000000,
        maxBackoff := 30000000000, backoffMultiplier := 2 }
      (fun i => if i = 1 then Except.error "net timeout"
                else Except.error "execute mint tx: invalid intent id")
      (fun _ => false) =
      (RetryOutcome.failure "execute mint tx: invalid intent id", 2) :=
  (retry_classification
    { maxAttempts := 3, initialBackoff := 751000000,
      maxBackoff := 30000000000, backoffMultiplier := 2 }
    (fun i => if i = 1 then Except.error "net timeout"
              else Except.error "execute mint tx: invalid intent id")
    (fun _ => false) 3 (by decide)).1 2 "execute mint tx: invalid intent id"
    (by decide) (by decide)
    (by
      intro j hj1 hj2
      have hj : j = 1 := by omega
      subst hj
      exact ⟨"net timeout", rfl, by decide, rfl⟩)
    rfl (by decide)

/-! ## C7: idempotent replay of a successful submission -/

/-- C7: if a submission under key `key` went through the success path
(answered 201) from a store with no live record for that key, then any
later request bearing the same key, before the cached record's expiry,
receives the cached status code with a byte-identical body, performs no
escrow submission (no second intent, no second debit) and leaves the store
unchanged — whatever its own body is. -/
theorem idempotent_replay_cached (window : Int)
    (submit : MintRequest → Except String SubmitResult)
    (st0 st1 : String → Option IdemRecord) (key : String)
    (body : Option MintRequest) (now : Int)
    (resp : HttpReply) (ev : List ServerEvent)
    (hkey : trimStr key ≠ "")
    (hfresh : storeGet st0 now (trimStr key) = none)
    (h1 : handleMintIntents window submit st0 "POST" key body now = (st1, resp, ev))
    (h201 : resp.status = 201) :
    ∀ body2 now2, now2 ≤ now + window →
      handleMintIntents window submit st1 "POST" key body2 now2 = (st1, resp, []) := by
  intro body2 now2 hn2
  simp only [handleMintIntents] at h1
  rw [if_neg (fun h => h rfl), if_neg hkey, hfresh] at h1
  cases body with
  | none =>
    dsimp only at h1
    simp only [Prod.mk.injEq] at h1
    exact absurd h201 (by rw [← h1.2.1]; decide)
  | some p =>
    dsimp only at h1
    split_ifs at h1 with hA hB hC hD
    · simp only [Prod.mk.injEq] at h1
      exact absurd h201 (by rw [← h1.2.1]; decide)
    · simp only [Prod.mk.injEq] at h1
      exact absurd h201 (by rw [← h1.2.1]; decide)
    · simp only [Prod.mk.injEq] at h1
      exact absurd h201 (by rw [← h1.2.1]; decide)
    · simp only [Prod.mk.injEq] at h1
      exact absurd h201 (by rw [← h1.2.1]; decide)
    · cases hsub : submit p with
      | error e =>
        rw [hsub] at h1
        dsimp only at h1
        simp only [Prod.mk.injEq] at h1
        exact absurd h201 (by rw [← h1.2.1]; simp)
      | ok result =>
        rw [hsub] at h1
        dsimp only at h1
        simp only [Prod.mk.injEq] at h1
        obtain ⟨hst, hresp, -⟩ := h1
        subst hst
        subst hresp
        simp only [handleMintIntents]
        rw [if_neg (fun h => h rfl), if_neg hkey]
        have hnl : ¬(now + window < now2) := by omega
        have hget : storeGet
            (storeSave st0 (trimStr key)
              { statusCode := 201,
                response := renderMintResponse result.intentId "submitted" result.txHash,
                createdAt := now, expiresAt := now + window }) now2 (trimStr key) =
            some { statusCode := 201,
                   response := renderMintResponse result.intentId "submitted" result.txHash,
                   createdAt := now, expiresAt := now + window } := by
          simp [storeGet, storeSave, hnl]
        rw [hget]

/-- C7 witness: a concrete successful submission replayed with the same key
(and here even a different body) returns the identical cached reply and
invokes no escrow submission. -/
theorem idempotent_replay_cached_witness :
    handleMintIntents 3600 (fun _ => Except.ok { intentId := "0xabc", txHash := "0xdef" })
      ((handleMintIntents 3600 (fun _ => Except.ok { intentId := "0xabc", txHash := "0xdef" })
          (fun _ => none) "POST" "k1"
          (some { userAddress := "0xu", amount := "10", countryCode := "KE", txRef := "r1" }) 0).1)
      "POST" "k1" none 100 =
    ((handleMintIntents 3600 (fun _ => Except.ok { intentId := "0xabc", txHash := "0xdef" })
        (fun _ => none) "POST" "k1"
        (some { userAddress := "0xu", amount := "10", countryCode := "KE", txRef := "r1" }) 0).1,
     (handleMintIntents 3600 (fun _ => Except.ok { intentId := "0xabc", txHash := "0xdef" })
        (fun _ => none) "POST" "k1"
        (some { userAddress := "0xu", amount := "10", countryCode := "KE", txRef := "r1" }) 0).2.1,
     []) :=
  idempotent_replay_cached 3600 (fun _ => Except.ok { intentId := "0xabc", txHash := "0xdef" })
    (fun _ => none) _ "k1"
    (some { userAddress := "0xu", amount := "10", countryCode := "KE", txRef := "r1" }) 0 _ _
    (by decide) rfl rfl (by decide) none 100 (by omega)

/-! ## C9: cancellation mid-backoff -/

/-- C9 counterexample: a notification whose retry wait is cancelled after a
transient failure on attempt 1 (maxAttempts 2, DLQ path configured) makes
the handler write one Dead Letter entry carrying the context-cancellation
error and answer 500, though the claim says a cancellation mid-backoff
writes neither a success record nor a DLQ entry. -/
theorem cancellation_writes_dlq_counterexample :
    handleMpesaCallback 3600000000000 "dlq"
      { maxAttempts := 2, initialBackoff := 1000000, maxBackoff := 0, backoffMultiplier := 2 }
      (fun _ => Except.error "net timeout") (fun _ => true)
      (fun _ => none) [] "POST"
      (some { intentId := "0xid", txRef := "ref1", userAddress := "0xuser", amount := "10" }) 0 =
    ((fun _ => none),
     [{ timestamp := 0, payloadIntentId := "0xid", payloadTxRef := "ref1",
        payloadUserAddress := "0xuser", payloadAmount := "10",
        errText := "context canceled" }],
     { status := 500, body := "failed to execute mint: context canceled\n" }) := by
  rfl

/-- C9 (amended): a cancellation mid-backoff aborts the retry loop at the
attempt it interrupted and the handler then caches no success record and
leaves the store untouched, but — contrary to the claim — it does hand the
notification to the Dead Letter sink exactly like any other failure (one
entry appended when a DLQ path is configured, none otherwise) and answers
500. -/
theorem cancellation_no_success_but_dlq (window : Int) (dlqPath : String)
    (cfg : RetryConfig) (exec : Nat → Except String String) (cancelled : Nat → Bool)
    (store : String → Option IdemRecord) (dlq : List DLQEntry)
    (p : MpesaRequest) (now : Int) (e : String) (i : Nat)
    (hI : p.intentId ≠ "") (hT : p.txRef ≠ "") (hU : p.userAddress ≠ "") (hA : p.amount ≠ "")
    (hfresh : storeGet store now ("mpesa:" ++ p.txRef) = none)
    (hrun : executeMintWithRetry cfg exec cancelled = (RetryOutcome.cancelled e, i)) :
    handleMpesaCallback window dlqPath cfg exec cancelled store dlq "POST" (some p) now =
      (store, writeDLQ dlqPath dlq now p e,
       { status := 500, body := "failed to execute mint: " ++ e ++ "\n" }) := by
  simp only [handleMpesaCallback]
  rw [if_neg (fun h => h rfl), if_neg hI, if_neg hT, if_neg hU, if_neg hA, hfresh, hrun]

/-- C9 amended witness: the concrete cancelled run caches nothing and
appends the single DLQ entry produced by writeDLQ. -/
theorem cancellation_no_success_but_dlq_witness :
    handleMpesaCallback 3600 ""
      { maxAttempts := 3, initialBackoff := 1000000, maxBackoff := 0, backoffMultiplier := 2 }
      (fun _ => Except.error "connection refused") (fun _ => true)
      (fun _ => none) [] "POST"
      (some { intentId := "0xI", txRef := "r9", userAddress := "0xU", amount := "7" }) 5 =
    ((fun _ => none),
     writeDLQ "" [] 5
       { intentId := "0xI", txRef := "r9", userAddress := "0xU", amount := "7" }
       "context canceled",
     { status := 500, body := "failed to execute mint: context canceled\n" }) :=
  cancellation_no_success_but_dlq 3600 ""
    { maxAttempts := 3, initialBackoff := 1000000, maxBackoff := 0, backoffMultiplier := 2 }
    (fun _ => Except.error "connection refused") (fun _ => true)
    (fun _ => none) []
    { intentId := "0xI", txRef := "r9", userAddress := "0xU", amount := "7" } 5
    "context canceled" 1
    (by decide) (by decide) (by decide) (by decide) rfl rfl
